import Mathlib

/-!
Shallow embedding of the GoAdapt adaptive load balancer core
(repository Joyjeet045/GoAdapt), together with theorems settling the
specification claims about it.

Modelling conventions:
  * Go float64 values are embedded as exact rationals.
  * Go time instants and durations are embedded as integer nanoseconds
    (matching time.Time / time.Duration); the rate limiter, which works
    with fractional seconds, uses rational seconds.
  * The Go uint64 round-robin counter is a natural number reduced
    modulo 2 to the 64, matching machine wraparound.
  * sync.Map tables are embedded as association lists whose store
    operation overwrites the first matching key (keys stay unique,
    as in the Go map).
  * Randomness in the Q-learning policy (rand.Float64 and rand.Intn)
    is factored out as explicit oracle arguments: a Boolean saying
    whether the exploration branch is taken, and a natural number
    choice reduced modulo the candidate count.
-/

namespace GoAdapt

/-- Embedding of features.CircuitBreaker: failure counter with
threshold and cooldown.  The timeout and the last-failure timestamp
are integer nanoseconds. -/
structure CircuitBreaker where
  failures : Int
  threshold : Int
  timeout : Int
  lastFailedAt : Int
deriving DecidableEq, Repr

namespace CircuitBreaker

/-- features.NewCircuitBreaker: fresh breaker with zero failures and a
zero last-failure timestamp. -/
def new (threshold : Int) (timeout : Int) : CircuitBreaker :=
  { failures := 0, threshold := threshold, timeout := timeout, lastFailedAt := 0 }

/-- CircuitBreaker.Allow from features/rate_limiter.go: if the failure
count has reached the threshold, allow only when the time since the
last failure exceeds the timeout. -/
def Allow (cb : CircuitBreaker) (now : Int) : Bool :=
  if cb.failures ≥ cb.threshold then
    decide (now - cb.lastFailedAt > cb.timeout)
  else
    true

/-- CircuitBreaker.RecordSuccess: reset the failure count to zero. -/
def RecordSuccess (cb : CircuitBreaker) : CircuitBreaker :=
  { cb with failures := 0 }

/-- CircuitBreaker.RecordFailure: increment the failure count and
stamp the last-failure time. -/
def RecordFailure (cb : CircuitBreaker) (now : Int) : CircuitBreaker :=
  { cb with failures := cb.failures + 1, lastFailedAt := now }

end CircuitBreaker

/-- Embedding of features.RateLimiter: token bucket with fractional
tokens.  Times are rational seconds (the Go code converts the elapsed
time to float64 seconds before using it). -/
structure RateLimiter where
  tokens : ℚ
  capacity : ℚ
  refillRate : ℚ
  lastRefillTime : ℚ
deriving DecidableEq, Repr

namespace RateLimiter

/-- features.NewRateLimiter: the bucket starts full. -/
def new (capacity refillRate now : ℚ) : RateLimiter :=
  { tokens := capacity, capacity := capacity, refillRate := refillRate,
    lastRefillTime := now }

/-- RateLimiter.Allow from features/rate_limiter.go: refill from the
elapsed time, clamp to capacity, stamp the refill time, then consume
one token when at least one is available.  Returns the decision and
the updated limiter. -/
def Allow (rl : RateLimiter) (now : ℚ) : Bool × RateLimiter :=
  let elapsed := now - rl.lastRefillTime
  let t0 := rl.tokens + elapsed * rl.refillRate
  let t1 := if t0 > rl.capacity then rl.capacity else t0
  let rl1 : RateLimiter :=
    { rl with tokens := t1, lastRefillTime := now }
  if t1 ≥ 1 then
    (true, { rl1 with tokens := t1 - 1 })
  else
    (false, rl1)

/-- Run a sequence of Allow calls at the given instants, keeping only
the final limiter state. -/
def run (rl : RateLimiter) : List ℚ → RateLimiter
  | [] => rl
  | now :: rest => run (Allow rl now).2 rest

end RateLimiter

/-- Embedding of balancer.Backend: URL (as its string form), alive
flag, weight, active-connection counter and the per-backend circuit
breaker.  The reverse-proxy transport carries no routing state and is
omitted. -/
structure Backend where
  url : String
  alive : Bool
  weight : Int
  activeConnections : Int
  cb : CircuitBreaker
deriving DecidableEq, Repr

/-- A default Backend value, used only to totalize list indexing the
way Go's bounds-checked indexing never actually fails. -/
def defaultBackend : Backend :=
  { url := "", alive := false, weight := 0, activeConnections := 0,
    cb := CircuitBreaker.new 3 10000000000 }

instance : Inhabited Backend := ⟨defaultBackend⟩

namespace Backend

/-- Backend.SetAlive: overwrite only the alive flag. -/
def SetAlive (b : Backend) (alive : Bool) : Backend :=
  { b with alive := alive }

/-- Backend.IsAlive: the stored alive flag conjoined with the circuit
breaker gate. -/
def IsAlive (b : Backend) (now : Int) : Bool :=
  b.alive && b.cb.Allow now

end Backend

/-- Embedding of balancer.ServerPool: the ordered backend list plus
the shared uint64 counter (kept reduced modulo 2^64). -/
structure ServerPool where
  Backends : List Backend
  current : Nat
deriving DecidableEq, Repr

/-- 2^64, the modulus of the shared uint64 round-robin counter. -/
def U64 : Nat := 18446744073709551616

/-- The shared UpdateBackendStatus loop used by every policy: walk the
pool in order, set the alive flag of the first backend whose URL
string equals the given one, and stop. -/
def updateBackends : List Backend → String → Bool → List Backend
  | [], _, _ => []
  | b :: rest, u, alive =>
    if b.url = u then b.SetAlive alive :: rest
    else b :: updateBackends rest u alive

namespace RoundRobin

/-- RoundRobin.NextBackend from balancer/algorithms.go: increment the
shared counter (with uint64 wraparound), then probe up to N positions
starting at the counter, returning the first alive backend found.
Returns the selection and the pool with its updated counter. -/
def NextBackend (pool : ServerPool) (now : Int) : Option Backend × ServerPool :=
  let backends := pool.Backends
  let l := backends.length
  if l = 0 then (none, pool)
  else
    let start := (pool.current + 1) % U64
    let pool1 : ServerPool := { pool with current := start }
    match (List.range l).find?
        (fun i => (backends.getD (((start + i) % U64) % l) defaultBackend).IsAlive now) with
    | some i => (some (backends.getD (((start + i) % U64) % l) defaultBackend), pool1)
    | none => (none, pool1)

/-- k successive RoundRobin.NextBackend calls; collects the selections
in order together with the final pool. -/
def run (pool : ServerPool) (now : Int) : Nat → List (Option Backend) × ServerPool
  | 0 => ([], pool)
  | n + 1 =>
    let r := NextBackend pool now
    let rest := run r.2 now n
    (r.1 :: rest.1, rest.2)

/-- RoundRobin.UpdateBackendStatus: set the alive flag of the first
URL-matching backend. -/
def UpdateBackendStatus (pool : ServerPool) (u : String) (alive : Bool) : ServerPool :=
  { pool with Backends := updateBackends pool.Backends u alive }

end RoundRobin

/-- Generic association-list lookup, embedding sync.Map.Load with the
zero default the Go code substitutes for a missing key: value of the
first entry with the given key, or the default when absent. -/
def lookupA {α : Type} (t : List (String × α)) (k : String) (dflt : α) : α :=
  match t.find? (fun p => p.1 = k) with
  | some p => p.2
  | none => dflt

/-- Generic association-list store, embedding sync.Map.Store:
overwrite the first entry with the given key, or append when absent
(the map keeps one entry per key). -/
def storeA {α : Type} : List (String × α) → String → α → List (String × α)
  | [], k, v => [(k, v)]
  | p :: rest, k, v =>
    if p.1 = k then (k, v) :: rest else p :: storeA rest k v

/-- Lookup in the Q-table (sync.Map of float64), defaulting to 0. -/
def lookupQ (t : List (String × ℚ)) (k : String) : ℚ :=
  lookupA t k 0

/-- Store into the Q-table. -/
def storeQ (t : List (String × ℚ)) (k : String) (v : ℚ) : List (String × ℚ) :=
  storeA t k v

/-- Lookup in the counts table (sync.Map of int64), defaulting to 0. -/
def lookupC (t : List (String × Int)) (k : String) : Int :=
  lookupA t k 0

/-- Store into the counts table. -/
def storeC (t : List (String × Int)) (k : String) (v : Int) : List (String × Int) :=
  storeA t k v

/-- Embedding of balancer.QLearning (src/unnamed/part_000): the pool,
the Q and visit-count tables, and the scalar learning state. -/
structure QLearning where
  pool : ServerPool
  qTable : List (String × ℚ)
  counts : List (String × Int)
  epsilon : ℚ
  alpha : ℚ
  gamma : ℚ
  maxQValue : ℚ
  lastQDelta : ℚ
  cachedMaxQ : ℚ
deriving DecidableEq, Repr

namespace QLearning

/-- balancer.NewQLearning: fresh policy over a pool with the
configured hyperparameters; tables empty, aggregates zero. -/
def new (pool : ServerPool) (epsilon alpha gamma : ℚ) : QLearning :=
  { pool := pool, qTable := [], counts := [], epsilon := epsilon,
    alpha := alpha, gamma := gamma, maxQValue := 0, lastQDelta := 0,
    cachedMaxQ := 0 }

/-- The exploitation scan of QLearning.NextBackend: walk the pool,
skipping non-alive backends, tracking the best backend and its
Q-value (missing entries read as 0); a later backend replaces the
current best only on a strictly larger Q-value. -/
def exploitScan (qt : List (String × ℚ)) (now : Int) :
    List Backend → Option Backend → ℚ → Option Backend × ℚ
  | [], best, maxQ => (best, maxQ)
  | b :: rest, best, maxQ =>
    if b.IsAlive now then
      let qVal := lookupQ qt b.url
      if best = none ∨ qVal > maxQ then exploitScan qt now rest (some b) qVal
      else exploitScan qt now rest best maxQ
    else exploitScan qt now rest best maxQ

/-- QLearning.NextBackend with the random draws made explicit:
explore says whether rand.Float64() < epsilon, and choice is the
rand.Intn draw (reduced modulo the candidate count).  The exploration
branch picks among alive backends, or returns none when there are
none; the exploitation branch runs the best-Q scan seeded with
maxQ = -10^9, and when the scan finds nothing falls back to the first
alive backend, then to the first backend of the nonempty pool. -/
def NextBackend (ql : QLearning) (now : Int) (explore : Bool) (choice : Nat) :
    Option Backend :=
  let backends := ql.pool.Backends
  if backends.length = 0 then none
  else if explore then
    let aliveBackends := backends.filter (fun b => b.IsAlive now)
    if aliveBackends.length > 0 then
      some (aliveBackends.getD (choice % aliveBackends.length) defaultBackend)
    else none
  else
    match exploitScan ql.qTable now backends none (-1000000000) with
    | (some b, _) => some b
    | (none, _) =>
      match backends.find? (fun b => b.IsAlive now) with
      | some b => some b
      | none =>
        if backends.length > 0 then some (backends.getD 0 defaultBackend)
        else none

/-- The reward computation of QLearning.OnRequestCompletion: -50 on a
non-nil error; otherwise 100 minus a tenth of the duration in whole
milliseconds (Go Duration.Milliseconds truncates toward zero), floored
at -50.  There is no upper clamp. -/
def reward (err : Bool) (durationNs : Int) : ℚ :=
  if err then -50
  else
    let ms : ℚ := (Int.tdiv durationNs 1000000 : Int)
    let r := 100 - ms / 10
    if r < -50 then -50 else r

/-- QLearning.OnRequestCompletion (src/unnamed/part_000 lines 91-150):
compute the reward, apply the Bellman update against the cached
running maximum, record the absolute Q-delta, raise the running
maxima, decay epsilon, and bump the visit count. -/
def OnRequestCompletion (ql : QLearning) (urlStr : String)
    (durationNs : Int) (err : Bool) : QLearning :=
  let r := reward err durationNs
  let oldQ := lookupQ ql.qTable urlStr
  let newQ := (1 - ql.alpha) * oldQ + ql.alpha * (r + ql.gamma * ql.cachedMaxQ)
  let qTable1 := storeQ ql.qTable urlStr newQ
  let d := newQ - oldQ
  let qDelta := if d < 0 then -d else d
  let maxQ1 := if newQ > ql.maxQValue then newQ else ql.maxQValue
  let cached1 := if newQ > ql.cachedMaxQ then newQ else ql.cachedMaxQ
  let eps1 :=
    if ql.epsilon > 1/1000 ∧ maxQ1 > 0 then
      let decayFactor := 1 - qDelta / maxQ1
      let e := if decayFactor > 0 ∧ decayFactor < 1 then ql.epsilon * decayFactor
               else ql.epsilon * (99/100)
      if e < 1/1000 then 1/1000 else e
    else ql.epsilon
  let counts1 := storeC ql.counts urlStr (lookupC ql.counts urlStr + 1)
  { ql with
    qTable := qTable1, counts := counts1, epsilon := eps1,
    maxQValue := maxQ1, lastQDelta := qDelta, cachedMaxQ := cached1 }

/-- One completion event: backend URL, duration, error flag. -/
structure Event where
  url : String
  durationNs : Int
  err : Bool
deriving DecidableEq, Repr

/-- Fold a sequence of completion events through the policy. -/
def runCompletions (ql : QLearning) (events : List Event) : QLearning :=
  events.foldl (fun s e => s.OnRequestCompletion e.url e.durationNs e.err) ql

/-- QLearning.UpdateBackendStatus: set the alive flag of the first
URL-matching backend; nothing else changes. -/
def UpdateBackendStatus (ql : QLearning) (u : String) (alive : Bool) : QLearning :=
  { ql with pool := { ql.pool with Backends := updateBackends ql.pool.Backends u alive } }

/-- The document QLearning.Persist writes: both tables and the four
persisted scalars (alpha deliberately absent). -/
structure PersistDoc where
  qTable : List (String × ℚ)
  counts : List (String × Int)
  epsilon : ℚ
  gamma : ℚ
  maxQValue : ℚ
  lastQDelta : ℚ
deriving DecidableEq, Repr

/-- QLearning.Persist: snapshot the tables and the four scalars into
the document. -/
def Persist (ql : QLearning) : PersistDoc :=
  { qTable := ql.qTable, counts := ql.counts, epsilon := ql.epsilon,
    gamma := ql.gamma, maxQValue := ql.maxQValue, lastQDelta := ql.lastQDelta }

/-- QLearning.Load: store every document table entry into the policy's
tables and overwrite the four persisted scalars.  Neither alpha nor
cachedMaxQ is touched. -/
def Load (ql : QLearning) (d : PersistDoc) : QLearning :=
  { ql with
    qTable := d.qTable.foldl (fun t p => storeQ t p.1 p.2) ql.qTable,
    counts := d.counts.foldl (fun t p => storeC t p.1 p.2) ql.counts,
    epsilon := d.epsilon, gamma := d.gamma, maxQValue := d.maxQValue,
    lastQDelta := d.lastQDelta }

/-- QLearning.ImportState (src/unnamed/part_001): store every imported
Q entry while raising cachedMaxQ past it, store the imported counts,
and overwrite the four scalars. -/
def ImportState (ql : QLearning) (qT : List (String × ℚ))
    (cts : List (String × Int)) (epsilon gamma maxQValue lastQDelta : ℚ) :
    QLearning :=
  let folded := qT.foldl
    (fun acc p =>
      (storeQ acc.1 p.1 p.2, if p.2 > acc.2 then p.2 else acc.2))
    (ql.qTable, ql.cachedMaxQ)
  { ql with
    qTable := folded.1,
    cachedMaxQ := folded.2,
    counts := cts.foldl (fun t p => storeC t p.1 p.2) ql.counts,
    epsilon := epsilon, gamma := gamma, maxQValue := maxQValue,
    lastQDelta := lastQDelta }

end QLearning

/-! Concrete fixtures used by the scenario conjuncts, the witnesses
and the counterexamples. -/

/-- A healthy backend with the default breaker (threshold 3, 10 s). -/
def mkB (u : String) : Backend :=
  { url := u, alive := true, weight := 1, activeConnections := 0,
    cb := CircuitBreaker.new 3 10000000000 }

/-- The Scenario E pool: two healthy backends B1, B2. -/
def scenarioPool : ServerPool :=
  { Backends := [mkB "B1", mkB "B2"], current := 0 }

/-- Scenario E start: alpha 0.5, gamma 0.95, epsilon 0.01, empty
tables. -/
def scenarioE0 : QLearning :=
  QLearning.new scenarioPool (1/100) (1/2) (19/20)

/-- Scenario E after one success at 200 ms on B1. -/
def scenarioE1 : QLearning :=
  scenarioE0.OnRequestCompletion "B1" 200000000 false

/-- Scenario E after a further success at 50 ms on B1. -/
def scenarioE2 : QLearning :=
  scenarioE1.OnRequestCompletion "B1" 50000000 false

/-- A backend that is down (alive flag cleared). -/
def deadBackend : Backend :=
  { url := "d", alive := false, weight := 1, activeConnections := 0,
    cb := CircuitBreaker.new 3 10000000000 }

/-- A Q-learning policy over a pool whose only backend is down. -/
def deadQL : QLearning :=
  QLearning.new { Backends := [deadBackend], current := 0 } (1/100) (1/2) (19/20)

/-- A pool of three healthy backends whose shared counter is three
steps from the uint64 wraparound. -/
def wrapPool : ServerPool :=
  { Backends := [mkB "a", mkB "b", mkB "c"], current := U64 - 3 }

/-! Theorems settling the claims. -/

/-- Storing a key and reading it back yields the stored value. -/
theorem lookupA_storeA_self {α : Type} (t : List (String × α)) (k : String)
    (v d : α) : lookupA (storeA t k v) k d = v := by
  induction t with
  | nil => simp [storeA, lookupA]
  | cons p rest ih =>
    by_cases h : p.1 = k
    · simp [storeA, lookupA, h]
    · simp only [storeA, if_neg h]
      simp only [lookupA, List.find?]
      rw [decide_eq_false h]
      exact ih

/-- Storing one key leaves the lookup of any other key unchanged. -/
theorem lookupA_storeA_ne {α : Type} (t : List (String × α)) (k k' : String)
    (v d : α) (h : k' ≠ k) :
    lookupA (storeA t k v) k' d = lookupA t k' d := by
  induction t with
  | nil =>
    simp [storeA, lookupA, List.find?, decide_eq_false (Ne.symm h)]
  | cons p rest ih =>
    by_cases hp : p.1 = k
    · subst hp
      simp only [storeA, if_pos rfl]
      simp only [lookupA, List.find?]
      rw [decide_eq_false (Ne.symm h)]
    · simp only [storeA, if_neg hp]
      simp only [lookupA, List.find?] at ih ⊢
      cases hd : decide (p.1 = k') with
      | false => simp only [hd]; exact ih
      | true => simp only [hd]

/-- Claim C2: CircuitBreaker.Allow returns true exactly when the
failure count is below the threshold or the time since the last
recorded failure exceeds the cooldown; RecordSuccess resets the
failure count to 0, after which Allow returns true immediately (for a
positive threshold); RecordFailure increments the failure count and
stamps the last-failure time. -/
theorem circuitBreaker_allow_iff_and_transitions
    (cb : CircuitBreaker) (now now2 : Int) (hth : 0 < cb.threshold) :
    (cb.Allow now = true ↔
      (cb.failures < cb.threshold ∨ now - cb.lastFailedAt > cb.timeout))
    ∧ cb.RecordSuccess.failures = 0
    ∧ cb.RecordSuccess.Allow now2 = true
    ∧ (cb.RecordFailure now).failures = cb.failures + 1
    ∧ (cb.RecordFailure now).lastFailedAt = now := by
  refine ⟨?_, rfl, ?_, rfl, rfl⟩
  · unfold CircuitBreaker.Allow
    by_cases h : cb.failures ≥ cb.threshold
    · simp only [if_pos h, decide_eq_true_eq]
      constructor
      · intro hgt
        exact Or.inr hgt
      · intro hor
        rcases hor with hlt | hgt
        · omega
        · exact hgt
    · simp only [if_neg h, true_iff]
      exact Or.inl (by omega)
  · unfold CircuitBreaker.Allow CircuitBreaker.RecordSuccess
    simp only
    rw [if_neg (by omega)]

/-- Witness for C2 at a concrete breaker: two failures against
threshold three, then a success, leaves the breaker open. -/
theorem circuitBreaker_allow_iff_and_transitions_witness :
    (CircuitBreaker.mk 2 3 10 5).RecordSuccess.Allow 0 = true :=
  (circuitBreaker_allow_iff_and_transitions
    (CircuitBreaker.mk 2 3 10 5) 0 0 (by decide)).2.2.1

/-- One Allow call keeps the token count within the bucket bounds and
preserves the configuration fields. -/
theorem rateLimiter_allow_step (rl : RateLimiter) (now : ℚ)
    (ht : rl.lastRefillTime ≤ now) (hr : 0 ≤ rl.refillRate)
    (h0 : 0 ≤ rl.tokens) (hc : rl.tokens ≤ rl.capacity) :
    0 ≤ (rl.Allow now).2.tokens
    ∧ (rl.Allow now).2.tokens ≤ rl.capacity
    ∧ (rl.Allow now).2.capacity = rl.capacity
    ∧ (rl.Allow now).2.refillRate = rl.refillRate
    ∧ (rl.Allow now).2.lastRefillTime = now := by
  have hrefill : 0 ≤ (now - rl.lastRefillTime) * rl.refillRate :=
    mul_nonneg (by linarith) hr
  simp only [RateLimiter.Allow]
  split_ifs with h1 h2 h3 <;>
    refine ⟨?_, ?_, rfl, rfl, rfl⟩ <;> simp only <;> linarith

/-- Running any chain of Allow calls at nondecreasing instants keeps
the token count within the bucket bounds. -/
theorem rateLimiter_run_inv : ∀ (times : List ℚ) (rl : RateLimiter),
    0 ≤ rl.refillRate → 0 ≤ rl.tokens → rl.tokens ≤ rl.capacity →
    List.Chain (fun a b => a ≤ b) rl.lastRefillTime times →
    0 ≤ (RateLimiter.run rl times).tokens
    ∧ (RateLimiter.run rl times).tokens ≤ (RateLimiter.run rl times).capacity
    ∧ (RateLimiter.run rl times).capacity = rl.capacity
  | [], rl, _, h0, hc, _ => ⟨h0, hc, rfl⟩
  | now :: rest, rl, hr, h0, hc, hchain => by
    obtain ⟨hab, hrest⟩ := List.chain_cons.mp hchain
    obtain ⟨s0, s1, s2, s3, s4⟩ := rateLimiter_allow_step rl now hab hr h0 hc
    have ih := rateLimiter_run_inv rest (rl.Allow now).2
      (s3 ▸ hr) s0 (by rw [s2]; exact s1) (by rw [s4]; exact hrest)
    simp only [RateLimiter.run]
    refine ⟨ih.1, ih.2.1, ?_⟩
    rw [ih.2.2, s2]

/-- Claim C9: starting from a full bucket, after every Allow call the
token count stays within [0, capacity]; and each Allow first adds the
elapsed-time refill clamped to capacity while stamping the refill
time, then consumes exactly one token and returns true when at least
one token is available, and consumes nothing and returns false
otherwise. -/
theorem rateLimiter_invariant_and_allow
    (cap rate t0 : ℚ) (times : List ℚ)
    (hcap : 0 ≤ cap) (hrate : 0 ≤ rate)
    (hchain : List.Chain (fun a b => a ≤ b) t0 times) :
    (0 ≤ (RateLimiter.run (RateLimiter.new cap rate t0) times).tokens
      ∧ (RateLimiter.run (RateLimiter.new cap rate t0) times).tokens ≤ cap)
    ∧ (∀ rl : RateLimiter, ∀ now : ℚ,
        (rl.Allow now).2.lastRefillTime = now
        ∧ (rl.Allow now).2.capacity = rl.capacity
        ∧ ((rl.Allow now).1 = true ↔
            1 ≤ min (rl.tokens + (now - rl.lastRefillTime) * rl.refillRate) rl.capacity)
        ∧ ((rl.Allow now).1 = true →
            (rl.Allow now).2.tokens
              = min (rl.tokens + (now - rl.lastRefillTime) * rl.refillRate) rl.capacity - 1)
        ∧ ((rl.Allow now).1 = false →
            (rl.Allow now).2.tokens
              = min (rl.tokens + (now - rl.lastRefillTime) * rl.refillRate) rl.capacity)) := by
  constructor
  · have h := rateLimiter_run_inv times (RateLimiter.new cap rate t0) hrate
      hcap (le_refl cap) hchain
    have hcap2 : ((RateLimiter.new cap rate t0).run times).capacity = cap := h.2.2
    exact ⟨h.1, le_of_le_of_eq h.2.1 hcap2⟩
  · intro rl now
    have hmin :
        (if rl.tokens + (now - rl.lastRefillTime) * rl.refillRate > rl.capacity
          then rl.capacity
          else rl.tokens + (now - rl.lastRefillTime) * rl.refillRate)
        = min (rl.tokens + (now - rl.lastRefillTime) * rl.refillRate) rl.capacity := by
      rcases le_or_lt (rl.tokens + (now - rl.lastRefillTime) * rl.refillRate) rl.capacity
        with h | h
      · rw [if_neg (not_lt.mpr h), min_eq_left h]
      · rw [if_pos h, min_eq_right h.le]
    simp only [RateLimiter.Allow, hmin]
    split_ifs with h1
    · refine ⟨rfl, rfl, ?_, ?_, ?_⟩
      · simpa using h1
      · intro _; rfl
      · intro hfalse; cases hfalse
    · refine ⟨rfl, rfl, ?_, ?_, ?_⟩
      · simp only [false_iff]; exact fun hcon => h1 hcon
      · intro htrue; cases htrue
      · intro _; rfl

/-- Witness for C9 at Scenario D numbers: capacity 2, refill rate 1,
three calls; the token count stays within the bucket bounds. -/
theorem rateLimiter_invariant_and_allow_witness :
    0 ≤ (RateLimiter.run (RateLimiter.new 2 1 0) [0, 0, 3/2]).tokens
    ∧ (RateLimiter.run (RateLimiter.new 2 1 0) [0, 0, 3/2]).tokens ≤ 2 :=
  (rateLimiter_invariant_and_allow 2 1 0 [0, 0, 3/2] (by norm_num) (by norm_num)
    (List.Chain.cons (by norm_num) (List.Chain.cons (by norm_num)
      (List.Chain.cons (by norm_num) List.Chain.nil)))).1

/-- Modelled from the spec, for comparison with the source reward:
reward is -50 on error, otherwise clamp(100 - latency_ms/10) to
[-50, +100], where durations at most 0 are treated as 0.0001 seconds
before converting to milliseconds. -/
def rewardSpecModel (err : Bool) (durationNs : Int) : ℚ :=
  if err then -50
  else
    let secs : ℚ := if durationNs ≤ 0 then 1/10000 else (durationNs : ℚ) / 1000000000
    let ms := secs * 1000
    max (-50) (min 100 (100 - ms / 10))

/-- Counterexample to C3: at a zero duration with no error the source
reward is exactly 100, while the claimed formula (durations at most 0
read as 0.0001 s, upper clamp at +100) gives 99.99; and at a negative
duration the source reward exceeds the claimed +100 upper clamp. -/
theorem qlearning_reward_counterexample :
    QLearning.reward false 0 = 100
    ∧ rewardSpecModel false 0 = 9999/100
    ∧ QLearning.reward false 0 ≠ rewardSpecModel false 0
    ∧ QLearning.reward false (-1000000000) = 200 := by
  have h1 : QLearning.reward false 0 = 100 := by
    unfold QLearning.reward; norm_num
  have h2 : rewardSpecModel false 0 = 9999/100 := by
    unfold rewardSpecModel; norm_num [min_def, max_def]
  have h4 : QLearning.reward false (-1000000000) = 200 := by
    unfold QLearning.reward
    have h : Int.tdiv (-1000000000) 1000000 = -1000 := by decide
    rw [h]; norm_num
  refine ⟨h1, h2, ?_, h4⟩
  rw [h1, h2]; norm_num

/-- Claim C3 amended: on error the reward is exactly -50; otherwise it
is 100 - ms/10 floored at -50, where ms is the completion duration in
whole milliseconds truncated toward zero; there is no upper clamp and
no special treatment of nonpositive durations, but for nonnegative
durations the reward does lie within [-50, 100]. -/
theorem qlearning_reward_amended (err : Bool) (d : Int) :
    (err = true → QLearning.reward err d = -50)
    ∧ (err = false →
        QLearning.reward err d
          = max (-50) (100 - ((Int.tdiv d 1000000 : Int) : ℚ) / 10))
    ∧ (err = false → 0 ≤ d →
        -50 ≤ QLearning.reward err d ∧ QLearning.reward err d ≤ 100) := by
  have hform : QLearning.reward false d
      = max (-50) (100 - ((Int.tdiv d 1000000 : Int) : ℚ) / 10) := by
    unfold QLearning.reward
    simp only [Bool.false_eq_true, if_false]
    rcases lt_or_le (100 - ((Int.tdiv d 1000000 : Int) : ℚ) / 10) (-50) with h | h
    · rw [if_pos h, max_eq_left h.le]
    · rw [if_neg (not_lt.mpr h), max_eq_right h]
  refine ⟨?_, ?_, ?_⟩
  · intro h; subst h; rfl
  · intro h; subst h; exact hform
  · intro h hd; subst h
    rw [hform]
    have hms : (0 : ℚ) ≤ ((Int.tdiv d 1000000 : Int) : ℚ) := by
      have := Int.tdiv_nonneg hd (by norm_num : (0:Int) ≤ 1000000)
      exact_mod_cast this
    constructor
    · exact le_max_left _ _
    · apply max_le (by norm_num)
      have : ((Int.tdiv d 1000000 : Int) : ℚ) / 10 ≥ 0 := by positivity
      linarith

/-- Witness for C3 amended, at a 200 ms success: the reward is within
[-50, 100]. -/
theorem qlearning_reward_amended_witness :
    -50 ≤ QLearning.reward false 200000000
    ∧ QLearning.reward false 200000000 ≤ 100 :=
  (qlearning_reward_amended false 200000000).2.2 rfl (by norm_num)

/-- The Go idiom "if x > m then x else m" is the maximum. -/
theorem if_gt_eq_max (m x : ℚ) : (if x > m then x else m) = max m x := by
  rcases lt_or_le m x with h | h
  · rw [if_pos h, max_eq_right h.le]
  · rw [if_neg (not_lt.mpr h), max_eq_left h]

/-- The Go idiom "if x < 0 then -x else x" is the absolute value. -/
theorem if_lt_zero_eq_abs (x : ℚ) : (if x < 0 then -x else x) = |x| := by
  rcases lt_or_le x 0 with h | h
  · rw [if_pos h, abs_of_neg h]
  · rw [if_neg (not_lt.mpr h), abs_of_nonneg h]

/-- Claim C4: OnRequestCompletion performs the Bellman update against
the cached running maximum, records the absolute Q-delta, and raises
maxQValue and cachedMaxQ to the new Q-value when it exceeds them; in
Scenario E (alpha 0.5, gamma 0.95, empty table) a 200 ms success
drives Q(B1) to 40 and a following 50 ms success (cached maximum now
40) drives it to 86.5. -/
theorem qlearning_bellman_update :
    (∀ (ql : QLearning) (u : String) (d : Int) (err : Bool),
      lookupQ (ql.OnRequestCompletion u d err).qTable u
          = (1 - ql.alpha) * lookupQ ql.qTable u
            + ql.alpha * (QLearning.reward err d + ql.gamma * ql.cachedMaxQ)
      ∧ (ql.OnRequestCompletion u d err).lastQDelta
          = |(1 - ql.alpha) * lookupQ ql.qTable u
              + ql.alpha * (QLearning.reward err d + ql.gamma * ql.cachedMaxQ)
             - lookupQ ql.qTable u|
      ∧ (ql.OnRequestCompletion u d err).maxQValue
          = max ql.maxQValue
              ((1 - ql.alpha) * lookupQ ql.qTable u
                + ql.alpha * (QLearning.reward err d + ql.gamma * ql.cachedMaxQ))
      ∧ (ql.OnRequestCompletion u d err).cachedMaxQ
          = max ql.cachedMaxQ
              ((1 - ql.alpha) * lookupQ ql.qTable u
                + ql.alpha * (QLearning.reward err d + ql.gamma * ql.cachedMaxQ)))
    ∧ lookupQ scenarioE1.qTable "B1" = 40
    ∧ scenarioE1.cachedMaxQ = 40
    ∧ lookupQ scenarioE2.qTable "B1" = 173/2 := by
  have hgen : ∀ (ql : QLearning) (u : String) (d : Int) (err : Bool),
      lookupQ (ql.OnRequestCompletion u d err).qTable u
          = (1 - ql.alpha) * lookupQ ql.qTable u
            + ql.alpha * (QLearning.reward err d + ql.gamma * ql.cachedMaxQ)
      ∧ (ql.OnRequestCompletion u d err).lastQDelta
          = |(1 - ql.alpha) * lookupQ ql.qTable u
              + ql.alpha * (QLearning.reward err d + ql.gamma * ql.cachedMaxQ)
             - lookupQ ql.qTable u|
      ∧ (ql.OnRequestCompletion u d err).maxQValue
          = max ql.maxQValue
              ((1 - ql.alpha) * lookupQ ql.qTable u
                + ql.alpha * (QLearning.reward err d + ql.gamma * ql.cachedMaxQ))
      ∧ (ql.OnRequestCompletion u d err).cachedMaxQ
          = max ql.cachedMaxQ
              ((1 - ql.alpha) * lookupQ ql.qTable u
                + ql.alpha * (QLearning.reward err d + ql.gamma * ql.cachedMaxQ)) := by
    intro ql u d err
    simp only [QLearning.OnRequestCompletion]
    refine ⟨?_, ?_, ?_, ?_⟩
    · exact lookupA_storeA_self ql.qTable u _ 0
    · rw [if_lt_zero_eq_abs]
    · rw [if_gt_eq_max]
    · rw [if_gt_eq_max]
  have r1 : QLearning.reward false 200000000 = 80 := by
    unfold QLearning.reward
    have ht : Int.tdiv 200000000 1000000 = 200 := by decide
    rw [ht]; norm_num
  have r2 : QLearning.reward false 50000000 = 95 := by
    unfold QLearning.reward
    have ht : Int.tdiv 50000000 1000000 = 50 := by decide
    rw [ht]; norm_num
  have e0q : lookupQ scenarioE0.qTable "B1" = 0 := rfl
  have e0alpha : scenarioE0.alpha = 1/2 := rfl
  have e0gamma : scenarioE0.gamma = 19/20 := rfl
  have e0cached : scenarioE0.cachedMaxQ = 0 := rfl
  obtain ⟨h1q, _, _, h1c⟩ := hgen scenarioE0 "B1" 200000000 false
  have hq1 : lookupQ scenarioE1.qTable "B1" = 40 := by
    unfold scenarioE1
    rw [h1q, e0alpha, e0gamma, e0cached, e0q, r1]; norm_num
  have hc1 : scenarioE1.cachedMaxQ = 40 := by
    unfold scenarioE1
    rw [h1c, e0alpha, e0gamma, e0cached, e0q, r1]
    norm_num [max_def]
  have e1alpha : scenarioE1.alpha = 1/2 := rfl
  have e1gamma : scenarioE1.gamma = 19/20 := rfl
  obtain ⟨h2q, _, _, _⟩ := hgen scenarioE1 "B1" 50000000 false
  have hq2 : lookupQ scenarioE2.qTable "B1" = 173/2 := by
    unfold scenarioE2
    rw [h2q, e1alpha, e1gamma, hc1, hq1, r2]; norm_num
  exact ⟨hgen, hq1, hc1, hq2⟩

/-- Bounds for the epsilon-decay expression: with epsilon at or above
the floor, the decayed value stays at or above the floor and never
exceeds the old epsilon, whatever the delta and maximum arguments. -/
theorem eps_decay_bounds (e q M : ℚ) (h0 : 1/1000 ≤ e) :
    1/1000 ≤ (if e > 1/1000 ∧ M > 0 then
        (if (if 1 - q / M > 0 ∧ 1 - q / M < 1 then e * (1 - q / M)
             else e * (99/100)) < 1/1000
         then 1/1000
         else (if 1 - q / M > 0 ∧ 1 - q / M < 1 then e * (1 - q / M)
               else e * (99/100)))
      else e)
    ∧ (if e > 1/1000 ∧ M > 0 then
        (if (if 1 - q / M > 0 ∧ 1 - q / M < 1 then e * (1 - q / M)
             else e * (99/100)) < 1/1000
         then 1/1000
         else (if 1 - q / M > 0 ∧ 1 - q / M < 1 then e * (1 - q / M)
               else e * (99/100)))
      else e) ≤ e := by
  have hepos : (0 : ℚ) < e := lt_of_lt_of_le (by norm_num) h0
  split_ifs with h1 h2 h3 h4
  · exact ⟨le_refl _, by linarith [h1.1]⟩
  · constructor
    · linarith
    · have := mul_lt_mul_of_pos_left h2.2 hepos
      linarith
  · exact ⟨le_refl _, by linarith [h1.1]⟩
  · exact ⟨by linarith, by linarith⟩
  · exact ⟨h0, le_refl _⟩

/-- One completion never raises epsilon and never takes it below the
floor, provided it starts at or above the floor. -/
theorem qlearning_eps_step (ql : QLearning) (u : String) (d : Int) (err : Bool)
    (h0 : 1/1000 ≤ ql.epsilon) :
    1/1000 ≤ (ql.OnRequestCompletion u d err).epsilon
    ∧ (ql.OnRequestCompletion u d err).epsilon ≤ ql.epsilon := by
  simp only [QLearning.OnRequestCompletion]
  exact eps_decay_bounds ql.epsilon _ _ h0

/-- Claim C5: across any sequence of completions, starting from an
epsilon at least the 0.001 floor, epsilon never increases and stays in
[0.001, initial epsilon]; moreover no decay at all is applied when
epsilon is already at or below the floor or when the updated maximum
Q-value is not positive. -/
theorem qlearning_epsilon_invariant (events : List QLearning.Event)
    (ql : QLearning) (h0 : 1/1000 ≤ ql.epsilon) :
    (1/1000 ≤ (QLearning.runCompletions ql events).epsilon
      ∧ (QLearning.runCompletions ql events).epsilon ≤ ql.epsilon)
    ∧ (∀ (ql2 : QLearning) (u : String) (d : Int) (err : Bool),
        ql2.epsilon ≤ 1/1000 ∨ (ql2.OnRequestCompletion u d err).maxQValue ≤ 0 →
        (ql2.OnRequestCompletion u d err).epsilon = ql2.epsilon) := by
  constructor
  · induction events generalizing ql with
    | nil => exact ⟨h0, le_refl _⟩
    | cons e rest ih =>
      have hstep := qlearning_eps_step ql e.url e.durationNs e.err h0
      have hrec := ih (ql.OnRequestCompletion e.url e.durationNs e.err) hstep.1
      simp only [QLearning.runCompletions, List.foldl_cons] at hrec ⊢
      exact ⟨hrec.1, le_trans hrec.2 hstep.2⟩
  · intro ql2 u d err hyp
    simp only [QLearning.OnRequestCompletion] at hyp ⊢
    revert hyp
    generalize (1 - ql2.alpha) * lookupQ ql2.qTable u
      + ql2.alpha * (QLearning.reward err d + ql2.gamma * ql2.cachedMaxQ) = nq
    intro hyp
    rcases hyp with h | h
    · rw [if_neg]
      rintro ⟨h1, _⟩
      linarith
    · rw [if_neg]
      rintro ⟨_, h2⟩
      linarith

/-- Witness for C5: from Scenario E's initial epsilon 0.01 and two
completions, epsilon stays within the claimed interval. -/
theorem qlearning_epsilon_invariant_witness :
    1/1000 ≤ (QLearning.runCompletions scenarioE0
        [QLearning.Event.mk "B1" 200000000 false,
         QLearning.Event.mk "B1" 50000000 false]).epsilon
    ∧ (QLearning.runCompletions scenarioE0
        [QLearning.Event.mk "B1" 200000000 false,
         QLearning.Event.mk "B1" 50000000 false]).epsilon ≤ scenarioE0.epsilon :=
  (qlearning_epsilon_invariant
    [QLearning.Event.mk "B1" 200000000 false,
     QLearning.Event.mk "B1" 50000000 false]
    scenarioE0 (by norm_num [scenarioE0, QLearning.new])).1

/-- Storing an absent key appends the entry. -/
theorem storeA_append {α : Type} (t : List (String × α)) (k : String) (v : α)
    (h : ∀ p ∈ t, p.1 ≠ k) : storeA t k v = t ++ [(k, v)] := by
  induction t with
  | nil => rfl
  | cons p rest ih =>
    have hp : p.1 ≠ k := h p (List.mem_cons_self p rest)
    simp only [storeA, if_neg hp, List.cons_append, List.cons.injEq, true_and]
    exact ih (fun q hq => h q (List.mem_cons_of_mem p hq))

/-- Folding stores of entries with pairwise-distinct keys, all absent
from the accumulator, appends the entries in order. -/
theorem foldl_storeA_append {α : Type} :
    ∀ (entries t : List (String × α)),
    (entries.map Prod.fst).Nodup →
    (∀ p ∈ entries, ∀ q ∈ t, q.1 ≠ p.1) →
    entries.foldl (fun acc p => storeA acc p.1 p.2) t = t ++ entries
  | [], t, _, _ => by simp
  | p :: rest, t, hnd, hdisj => by
    have hstep : storeA t p.1 p.2 = t ++ [p] := by
      rw [storeA_append t p.1 p.2 (fun q hq => hdisj p (List.mem_cons_self p rest) q hq)]
    have hnd1 : (rest.map Prod.fst).Nodup := (List.nodup_cons.mp hnd).2
    have hhead : p.1 ∉ rest.map Prod.fst := (List.nodup_cons.mp hnd).1
    have hdisj1 : ∀ p2 ∈ rest, ∀ q ∈ t ++ [p], q.1 ≠ p2.1 := by
      intro p2 hp2 q hq
      rcases List.mem_append.mp hq with hqt | hqp
      · exact hdisj p2 (List.mem_cons_of_mem p hp2) q hqt
      · have : q = p := List.mem_singleton.mp hqp
        subst this
        intro hcon
        exact hhead (hcon ▸ List.mem_map_of_mem Prod.fst hp2)
    calc (p :: rest).foldl (fun acc q => storeA acc q.1 q.2) t
        = rest.foldl (fun acc q => storeA acc q.1 q.2) (storeA t p.1 p.2) := by
          simp [List.foldl_cons]
      _ = (t ++ [p]) ++ rest := by
          rw [hstep]
          exact foldl_storeA_append rest (t ++ [p]) hnd1 hdisj1
      _ = t ++ (p :: rest) := by simp

/-- Claim C6: Persist then Load into a freshly configured policy
reproduces the whole Q-table, the whole counts table and the scalars
epsilon, gamma, maxQValue and lastQDelta exactly, while alpha keeps
the fresh policy's configured value. -/
theorem qlearning_persist_load_roundtrip
    (ql : QLearning) (pool2 : ServerPool) (eps2 alpha2 gamma2 : ℚ)
    (hq : (ql.qTable.map Prod.fst).Nodup)
    (hc : (ql.counts.map Prod.fst).Nodup) :
    ((QLearning.new pool2 eps2 alpha2 gamma2).Load ql.Persist).qTable = ql.qTable
    ∧ ((QLearning.new pool2 eps2 alpha2 gamma2).Load ql.Persist).counts = ql.counts
    ∧ ((QLearning.new pool2 eps2 alpha2 gamma2).Load ql.Persist).epsilon = ql.epsilon
    ∧ ((QLearning.new pool2 eps2 alpha2 gamma2).Load ql.Persist).gamma = ql.gamma
    ∧ ((QLearning.new pool2 eps2 alpha2 gamma2).Load ql.Persist).maxQValue = ql.maxQValue
    ∧ ((QLearning.new pool2 eps2 alpha2 gamma2).Load ql.Persist).lastQDelta = ql.lastQDelta
    ∧ ((QLearning.new pool2 eps2 alpha2 gamma2).Load ql.Persist).alpha = alpha2 := by
  refine ⟨?_, ?_, rfl, rfl, rfl, rfl, rfl⟩
  · show ql.Persist.qTable.foldl (fun t p => storeQ t p.1 p.2) [] = ql.qTable
    simp only [storeQ, QLearning.Persist]
    rw [foldl_storeA_append ql.qTable [] hq (by intro p _ q hq2; cases hq2)]
    simp
  · show ql.Persist.counts.foldl (fun t p => storeC t p.1 p.2) [] = ql.counts
    simp only [storeC, QLearning.Persist]
    rw [foldl_storeA_append ql.counts [] hc (by intro p _ q hq2; cases hq2)]
    simp

/-- A Q-learning state with two learned backends, used as the
round-trip witness input. -/
def persistFixture : QLearning :=
  { pool := scenarioPool,
    qTable := [("B1", 40), ("B2", 17/2)],
    counts := [("B1", 3), ("B2", 1)],
    epsilon := 1/200, alpha := 1/2, gamma := 19/20,
    maxQValue := 40, lastQDelta := 5, cachedMaxQ := 40 }

/-- Witness for C6 at a concrete two-entry state: the tables come back
whole and alpha comes from the fresh configuration. -/
theorem qlearning_persist_load_roundtrip_witness :
    ((QLearning.new scenarioPool (1/100) (3/10) (19/20)).Load
        persistFixture.Persist).qTable = persistFixture.qTable
    ∧ ((QLearning.new scenarioPool (1/100) (3/10) (19/20)).Load
        persistFixture.Persist).alpha = 3/10 :=
  ⟨(qlearning_persist_load_roundtrip persistFixture scenarioPool (1/100) (3/10) (19/20)
      (by simp [persistFixture]) (by simp [persistFixture])).1,
   (qlearning_persist_load_roundtrip persistFixture scenarioPool (1/100) (3/10) (19/20)
      (by simp [persistFixture]) (by simp [persistFixture])).2.2.2.2.2.2⟩

/-- The running maximum of the Q-values of a table, seeded with a
prior value: what the spec says the cached maximum should be rebuilt
to. -/
def qTableMax (t : List (String × ℚ)) (prior : ℚ) : ℚ :=
  t.foldl (fun m p => max m p.2) prior

/-- A persisted document with one learned Q-value, used to exhibit
the Load behavior. -/
def loadDocFixture : QLearning.PersistDoc :=
  { qTable := [("b1", 40)], counts := [("b1", 7)],
    epsilon := 1/100, gamma := 19/20, maxQValue := 40, lastQDelta := 5 }

/-- A fresh policy after loading that document. -/
def loadedQL : QLearning :=
  (QLearning.new scenarioPool (1/100) (3/10) (19/20)).Load loadDocFixture

/-- Counterexample to C7: after Load succeeds on a document whose
Q-table holds the value 40, the cached running maximum is still 0,
not the claimed maximum (40) of the loaded table. -/
theorem qlearning_load_cachedMaxQ_counterexample :
    loadedQL.cachedMaxQ = 0
    ∧ lookupQ loadedQL.qTable "b1" = 40
    ∧ qTableMax loadedQL.qTable loadedQL.cachedMaxQ = 40
    ∧ loadedQL.cachedMaxQ ≠ qTableMax loadedQL.qTable loadedQL.cachedMaxQ := by
  have htab : loadedQL.qTable = [("b1", 40)] := rfl
  have hcache : loadedQL.cachedMaxQ = 0 := rfl
  have hmax : qTableMax loadedQL.qTable loadedQL.cachedMaxQ = 40 := by
    rw [htab, hcache]
    simp only [qTableMax, List.foldl_cons, List.foldl_nil]
    norm_num [max_def]
  refine ⟨hcache, rfl, hmax, ?_⟩
  rw [hmax, hcache]
  norm_num

/-- The second component of ImportState's combined fold is the
running maximum of the imported Q-values. -/
theorem importState_fold_snd (qT : List (String × ℚ)) :
    ∀ (t : List (String × ℚ)) (m : ℚ),
    (qT.foldl (fun acc p => (storeQ acc.1 p.1 p.2,
        if p.2 > acc.2 then p.2 else acc.2)) (t, m)).2
    = qTableMax qT m := by
  induction qT with
  | nil => intro t m; rfl
  | cons q rest ih =>
    intro t m
    simp only [List.foldl_cons, qTableMax]
    rw [show (if q.2 > m then q.2 else m) = max m q.2 from if_gt_eq_max m q.2]
    exact ih (storeQ t q.1 q.2) (max m q.2)

/-- The seeded running maximum dominates its seed. -/
theorem le_qTableMax_init (qT : List (String × ℚ)) :
    ∀ m : ℚ, m ≤ qTableMax qT m := by
  induction qT with
  | nil => intro m; exact le_refl m
  | cons q rest ih =>
    intro m
    calc m ≤ max m q.2 := le_max_left m q.2
      _ ≤ qTableMax rest (max m q.2) := ih (max m q.2)
      _ = qTableMax (q :: rest) m := rfl

/-- The seeded running maximum dominates every table value. -/
theorem mem_le_qTableMax (qT : List (String × ℚ)) :
    ∀ (m : ℚ) (p : String × ℚ), p ∈ qT → p.2 ≤ qTableMax qT m := by
  induction qT with
  | nil => intro m p hp; cases hp
  | cons q rest ih =>
    intro m p hp
    rcases List.mem_cons.mp hp with h | h
    · subst h
      calc p.2 ≤ max m p.2 := le_max_right m p.2
        _ ≤ qTableMax rest (max m p.2) := le_qTableMax_init rest (max m p.2)
        _ = qTableMax (p :: rest) m := rfl
    · exact ih (max m q.2) p h

/-- The seeded running maximum is the seed or one of the values. -/
theorem qTableMax_cases (qT : List (String × ℚ)) :
    ∀ m : ℚ, qTableMax qT m = m ∨ ∃ p ∈ qT, qTableMax qT m = p.2 := by
  induction qT with
  | nil => intro m; exact Or.inl rfl
  | cons q rest ih =>
    intro m
    have hstep : qTableMax (q :: rest) m = qTableMax rest (max m q.2) := rfl
    rcases ih (max m q.2) with h | ⟨p, hp, hval⟩
    · rcases max_choice m q.2 with hm | hm
      · exact Or.inl (by rw [hstep, h, hm])
      · exact Or.inr ⟨q, List.mem_cons_self q rest, by rw [hstep, h, hm]⟩
    · exact Or.inr ⟨p, List.mem_cons_of_mem q hp, by rw [hstep, hval]⟩

/-- Claim C7 amended: Load leaves the cached running maximum
untouched; the rebuild happens in ImportState, whose resulting cached
maximum is the running maximum of the imported Q-values seeded with
the prior cached maximum — it dominates the prior value and every
imported value, and equals one of them. -/
theorem qlearning_cachedMaxQ_amended (ql : QLearning) (d : QLearning.PersistDoc)
    (qT : List (String × ℚ)) (cts : List (String × Int)) (e g mq ld : ℚ) :
    (ql.Load d).cachedMaxQ = ql.cachedMaxQ
    ∧ (ql.ImportState qT cts e g mq ld).cachedMaxQ = qTableMax qT ql.cachedMaxQ
    ∧ ql.cachedMaxQ ≤ qTableMax qT ql.cachedMaxQ
    ∧ (∀ p ∈ qT, p.2 ≤ qTableMax qT ql.cachedMaxQ)
    ∧ (qTableMax qT ql.cachedMaxQ = ql.cachedMaxQ
        ∨ ∃ p ∈ qT, qTableMax qT ql.cachedMaxQ = p.2) := by
  refine ⟨rfl, ?_, le_qTableMax_init qT ql.cachedMaxQ,
    fun p hp => mem_le_qTableMax qT ql.cachedMaxQ p hp,
    qTableMax_cases qT ql.cachedMaxQ⟩
  simp only [QLearning.ImportState]
  exact importState_fold_snd qT ql.qTable ql.cachedMaxQ

/-- Witness for C7 amended: importing a table holding 40 into a fresh
policy sets the cached maximum to the table maximum, which dominates
the imported entry. -/
theorem qlearning_cachedMaxQ_amended_witness :
    ((QLearning.new scenarioPool (1/100) (3/10) (19/20)).ImportState
        [("B1", 40)] [("B1", 3)] (1/100) (19/20) 40 5).cachedMaxQ
      = qTableMax [("B1", 40)]
          (QLearning.new scenarioPool (1/100) (3/10) (19/20)).cachedMaxQ
    ∧ (40 : ℚ) ≤ qTableMax [("B1", 40)]
          (QLearning.new scenarioPool (1/100) (3/10) (19/20)).cachedMaxQ :=
  ⟨(qlearning_cachedMaxQ_amended (QLearning.new scenarioPool (1/100) (3/10) (19/20))
      loadDocFixture [("B1", 40)] [("B1", 3)] (1/100) (19/20) 40 5).2.1,
   (qlearning_cachedMaxQ_amended (QLearning.new scenarioPool (1/100) (3/10) (19/20))
      loadDocFixture [("B1", 40)] [("B1", 3)] (1/100) (19/20) 40 5).2.2.2.1
     ("B1", 40) (List.mem_singleton.mpr rfl)⟩

/-- updateBackends preserves the list length. -/
theorem updateBackends_length (bs : List Backend) (u : String) (a : Bool) :
    (updateBackends bs u a).length = bs.length := by
  induction bs with
  | nil => rfl
  | cons b rest ih =>
    by_cases hb : b.url = u
    · simp [updateBackends, if_pos hb]
    · simp [updateBackends, if_neg hb, ih]

/-- Positions other than the first URL match are untouched. -/
theorem updateBackends_ne (bs : List Backend) (u : String) (a : Bool) :
    ∀ j, j ≠ bs.findIdx (fun b => decide (b.url = u)) →
    (updateBackends bs u a)[j]? = bs[j]? := by
  induction bs with
  | nil => intro j _; rfl
  | cons b rest ih =>
    intro j hj
    by_cases hb : b.url = u
    · rw [List.findIdx_cons] at hj
      simp only [decide_eq_true hb, cond_true] at hj
      obtain ⟨j2, rfl⟩ := Nat.exists_eq_succ_of_ne_zero hj
      simp [updateBackends, if_pos hb]
    · rw [List.findIdx_cons] at hj
      simp only [decide_eq_false hb, cond_false] at hj
      cases j with
      | zero => simp [updateBackends, if_neg hb]
      | succ j2 =>
        simp only [updateBackends, if_neg hb, List.getElem?_cons_succ]
        exact ih j2 (fun hcon => hj (by rw [hcon]))

/-- The first URL match, when it exists, is replaced by SetAlive of
the old backend. -/
theorem updateBackends_eq (bs : List Backend) (u : String) (a : Bool) :
    ∀ j, j = bs.findIdx (fun b => decide (b.url = u)) → j < bs.length →
    ∃ b, bs[j]? = some b ∧ b.url = u
      ∧ (updateBackends bs u a)[j]? = some (b.SetAlive a) := by
  induction bs with
  | nil => intro j _ hlt; cases hlt
  | cons b rest ih =>
    intro j hj hlt
    by_cases hb : b.url = u
    · rw [List.findIdx_cons] at hj
      simp only [decide_eq_true hb, cond_true] at hj
      subst hj
      exact ⟨b, by simp, hb, by simp [updateBackends, if_pos hb]⟩
    · rw [List.findIdx_cons] at hj
      simp only [decide_eq_false hb, cond_false] at hj
      subst hj
      have hlt2 : rest.findIdx (fun b => decide (b.url = u)) < rest.length := by
        simpa [Nat.succ_lt_succ_iff] using hlt
      obtain ⟨b2, h1, h2, h3⟩ := ih _ rfl hlt2
      exact ⟨b2, by simpa using h1, h2,
        by simp only [updateBackends, if_neg hb, List.getElem?_cons_succ]; exact h3⟩

/-- When no backend matches the URL, nothing changes. -/
theorem updateBackends_noMatch (bs : List Backend) (u : String) (a : Bool)
    (h : ∀ b ∈ bs, b.url ≠ u) : updateBackends bs u a = bs := by
  induction bs with
  | nil => rfl
  | cons b rest ih =>
    have hb : b.url ≠ u := h b (List.mem_cons_self b rest)
    simp only [updateBackends, if_neg hb, List.cons.injEq, true_and]
    exact ih (fun q hq => h q (List.mem_cons_of_mem b hq))

/-- Claim C10: UpdateBackendStatus flips the alive flag of at most the
first URL-matching backend, leaves that backend's other fields and
every other backend untouched, changes nothing when no URL matches,
and leaves the shared counter and all Q-learning internal state
unchanged; SetAlive itself writes only the alive flag. -/
theorem updateBackendStatus_frame :
    (∀ (b : Backend) (a : Bool),
      (b.SetAlive a).url = b.url ∧ (b.SetAlive a).alive = a
      ∧ (b.SetAlive a).weight = b.weight
      ∧ (b.SetAlive a).activeConnections = b.activeConnections
      ∧ (b.SetAlive a).cb = b.cb)
    ∧ (∀ (bs : List Backend) (u : String) (a : Bool),
        (updateBackends bs u a).length = bs.length)
    ∧ (∀ (bs : List Backend) (u : String) (a : Bool) (j : Nat),
        j ≠ bs.findIdx (fun b => decide (b.url = u)) →
        (updateBackends bs u a)[j]? = bs[j]?)
    ∧ (∀ (bs : List Backend) (u : String) (a : Bool) (j : Nat),
        j = bs.findIdx (fun b => decide (b.url = u)) → j < bs.length →
        ∃ b, bs[j]? = some b ∧ b.url = u
          ∧ (updateBackends bs u a)[j]? = some (b.SetAlive a))
    ∧ (∀ (bs : List Backend) (u : String) (a : Bool),
        (∀ b ∈ bs, b.url ≠ u) → updateBackends bs u a = bs)
    ∧ (∀ (pool : ServerPool) (u : String) (a : Bool),
        (RoundRobin.UpdateBackendStatus pool u a).current = pool.current)
    ∧ (∀ (ql : QLearning) (u : String) (a : Bool),
        (ql.UpdateBackendStatus u a).qTable = ql.qTable
        ∧ (ql.UpdateBackendStatus u a).counts = ql.counts
        ∧ (ql.UpdateBackendStatus u a).epsilon = ql.epsilon
        ∧ (ql.UpdateBackendStatus u a).alpha = ql.alpha
        ∧ (ql.UpdateBackendStatus u a).gamma = ql.gamma
        ∧ (ql.UpdateBackendStatus u a).maxQValue = ql.maxQValue
        ∧ (ql.UpdateBackendStatus u a).lastQDelta = ql.lastQDelta
        ∧ (ql.UpdateBackendStatus u a).cachedMaxQ = ql.cachedMaxQ
        ∧ (ql.UpdateBackendStatus u a).pool.current = ql.pool.current) :=
  ⟨fun _ _ => ⟨rfl, rfl, rfl, rfl, rfl⟩,
   updateBackends_length,
   fun bs u a => updateBackends_ne bs u a,
   fun bs u a => updateBackends_eq bs u a,
   updateBackends_noMatch,
   fun _ _ _ => rfl,
   fun _ _ _ => ⟨rfl, rfl, rfl, rfl, rfl, rfl, rfl, rfl, rfl⟩⟩

/-- Witness for C10 on a two-backend pool: marking "b" down leaves
position 0 untouched and replaces position 1 by its SetAlive. -/
theorem updateBackendStatus_frame_witness :
    (updateBackends [mkB "a", mkB "b"] "b" false)[0]? = [mkB "a", mkB "b"][0]?
    ∧ ∃ b, [mkB "a", mkB "b"][1]? = some b ∧ b.url = "b"
        ∧ (updateBackends [mkB "a", mkB "b"] "b" false)[1]? = some (b.SetAlive false) :=
  ⟨updateBackendStatus_frame.2.2.1 [mkB "a", mkB "b"] "b" false 0 (by decide),
   updateBackendStatus_frame.2.2.2.1 [mkB "a", mkB "b"] "b" false 1 (by decide) (by decide)⟩

/-- A RoundRobin selection is an alive member of the pool. -/
theorem roundRobin_next_some (pool : ServerPool) (now : Int) (b : Backend)
    (p2 : ServerPool) (h : RoundRobin.NextBackend pool now = (some b, p2)) :
    b ∈ pool.Backends ∧ b.IsAlive now = true := by
  simp only [RoundRobin.NextBackend] at h
  by_cases hl : pool.Backends.length = 0
  · rw [if_pos hl] at h
    simp at h
  · rw [if_neg hl] at h
    rcases hfind : List.find?
        (fun i => (pool.Backends.getD
          ((((pool.current + 1) % U64 + i) % U64) % pool.Backends.length)
          defaultBackend).IsAlive now) (List.range pool.Backends.length)
      with _ | i
    · rw [hfind] at h
      simp at h
    · rw [hfind] at h
      simp only [Prod.mk.injEq, Option.some.injEq] at h
      obtain ⟨hb, _⟩ := h
      have hpred := List.find?_some hfind
      have hlt : (((pool.current + 1) % U64 + i) % U64) % pool.Backends.length
          < pool.Backends.length := Nat.mod_lt _ (Nat.pos_of_ne_zero hl)
      rw [List.getD_eq_getElem pool.Backends defaultBackend hlt] at hb hpred
      subst hb
      exact ⟨List.getElem_mem _, of_decide_eq_true (by simpa using hpred)⟩

/-- Under no wraparound during the probe, a RoundRobin miss means no
backend is alive: the probed positions cover every index. -/
theorem roundRobin_next_none (pool : ServerPool) (now : Int) (p2 : ServerPool)
    (hwrap : (pool.current + 1) % U64 + pool.Backends.length ≤ U64)
    (h : RoundRobin.NextBackend pool now = (none, p2)) :
    ∀ b ∈ pool.Backends, b.IsAlive now = false := by
  intro b hb
  by_cases hl : pool.Backends.length = 0
  · rw [List.length_eq_zero] at hl
    rw [hl] at hb
    cases hb
  · simp only [RoundRobin.NextBackend, if_neg hl] at h
    rcases hfind : List.find?
        (fun i => (pool.Backends.getD
          ((((pool.current + 1) % U64 + i) % U64) % pool.Backends.length)
          defaultBackend).IsAlive now) (List.range pool.Backends.length)
      with _ | i
    swap
    · rw [hfind] at h; simp at h
    have hall := List.find?_eq_none.mp hfind
    obtain ⟨j, hjlt, hjb⟩ := List.getElem_of_mem hb
    set l := pool.Backends.length with hldef
    set s := (pool.current + 1) % U64 with hsdef
    have hlpos : 0 < l := Nat.pos_of_ne_zero hl
    have hsl : s % l < l := Nat.mod_lt _ hlpos
    set i := (j + l - s % l) % l with hidef
    have hil : i < l := Nat.mod_lt _ hlpos
    have hsle : s % l ≤ j + l := le_trans hsl.le (Nat.le_add_left l j)
    have hnowrap : s + i < U64 := by omega
    have hmod : ((s + i) % U64) % l = j := by
      rw [Nat.mod_eq_of_lt hnowrap]
      calc (s + i) % l = (s % l + i % l) % l := Nat.add_mod s i l
        _ = (s % l + (j + l - s % l) % l) % l := by rw [Nat.mod_eq_of_lt hil, hidef]
        _ = (s % l + (j + l - s % l)) % l :=
            Nat.ModEq.add_left (s % l) (Nat.mod_modEq (j + l - s % l) l)
        _ = (j + l) % l := by rw [Nat.add_sub_cancel' hsle]
        _ = j % l := Nat.add_mod_right j l
        _ = j := Nat.mod_eq_of_lt hjlt
    have hi := hall i (List.mem_range.mpr hil)
    rw [List.getD_eq_getElem pool.Backends defaultBackend
      (by rw [hmod]; exact hjlt)] at hi
    simp only [hmod] at hi
    rw [hjb] at hi
    simpa using hi

/-- A backend produced by the exploitation scan is an alive member of
the scanned list, unless it was already the seeded best. -/
theorem exploitScan_mem (qt : List (String × ℚ)) (now : Int) :
    ∀ (bs : List Backend) (best : Option Backend) (m : ℚ) (b : Backend),
    (QLearning.exploitScan qt now bs best m).1 = some b →
    (b ∈ bs ∧ b.IsAlive now = true) ∨ best = some b := by
  intro bs
  induction bs with
  | nil => intro best m b h; exact Or.inr h
  | cons c rest ih =>
    intro best m b h
    simp only [QLearning.exploitScan] at h
    by_cases hc : c.IsAlive now
    · rw [if_pos hc] at h
      by_cases hcond : best = none ∨ lookupQ qt c.url > m
      · rw [if_pos hcond] at h
        rcases ih (some c) (lookupQ qt c.url) b h with hmem | hbest
        · exact Or.inl ⟨List.mem_cons_of_mem c hmem.1, hmem.2⟩
        · have : c = b := Option.some.inj hbest
          subst this
          exact Or.inl ⟨List.mem_cons_self c rest, hc⟩
      · rw [if_neg hcond] at h
        rcases ih best m b h with hmem | hbest
        · exact Or.inl ⟨List.mem_cons_of_mem c hmem.1, hmem.2⟩
        · exact Or.inr hbest
    · rw [if_neg hc] at h
      rcases ih best m b h with hmem | hbest
      · exact Or.inl ⟨List.mem_cons_of_mem c hmem.1, hmem.2⟩
      · exact Or.inr hbest

/-- The exploitation scan never drops a seeded best backend. -/
theorem exploitScan_isSome_of_best (qt : List (String × ℚ)) (now : Int) :
    ∀ (bs : List Backend) (best : Option Backend) (m : ℚ), best.isSome →
    (QLearning.exploitScan qt now bs best m).1.isSome := by
  intro bs
  induction bs with
  | nil => intro best m h; exact h
  | cons c rest ih =>
    intro best m h
    simp only [QLearning.exploitScan]
    by_cases hc : c.IsAlive now
    · rw [if_pos hc]
      by_cases hcond : best = none ∨ lookupQ qt c.url > m
      · rw [if_pos hcond]; exact ih (some c) _ rfl
      · rw [if_neg hcond]; exact ih best m h
    · rw [if_neg hc]; exact ih best m h

/-- The exploitation scan finds something whenever some scanned
backend is alive. -/
theorem exploitScan_isSome (qt : List (String × ℚ)) (now : Int) :
    ∀ (bs : List Backend) (best : Option Backend) (m : ℚ) (b0 : Backend),
    b0 ∈ bs → b0.IsAlive now = true →
    (QLearning.exploitScan qt now bs best m).1.isSome := by
  intro bs
  induction bs with
  | nil => intro best m b0 h; cases h
  | cons c rest ih =>
    intro best m b0 hmem halive
    simp only [QLearning.exploitScan]
    rcases List.mem_cons.mp hmem with hh | ht
    · subst hh
      rw [if_pos halive]
      by_cases hcond : best = none ∨ lookupQ qt b0.url > m
      · rw [if_pos hcond]
        exact exploitScan_isSome_of_best qt now rest (some b0) _ rfl
      · rw [if_neg hcond]
        push_neg at hcond
        have : best.isSome := by
          cases best with
          | none => exact absurd rfl hcond.1
          | some x => rfl
        exact exploitScan_isSome_of_best qt now rest best m this
    · by_cases hc : c.IsAlive now
      · rw [if_pos hc]
        by_cases hcond : best = none ∨ lookupQ qt c.url > m
        · rw [if_pos hcond]; exact ih (some c) _ b0 ht halive
        · rw [if_neg hcond]; exact ih best m b0 ht halive
      · rw [if_neg hc]; exact ih best m b0 ht halive

/-- Scanning only dead backends returns the seed unchanged. -/
theorem exploitScan_all_dead (qt : List (String × ℚ)) (now : Int) :
    ∀ (bs : List Backend) (best : Option Backend) (m : ℚ),
    (∀ b ∈ bs, b.IsAlive now = false) →
    QLearning.exploitScan qt now bs best m = (best, m) := by
  intro bs
  induction bs with
  | nil => intro best m _; rfl
  | cons c rest ih =>
    intro best m hdead
    have hc : c.IsAlive now = false := hdead c (List.mem_cons_self c rest)
    simp only [QLearning.exploitScan, hc]
    simp only [Bool.false_eq_true, if_false]
    exact ih best m (fun b hb => hdead b (List.mem_cons_of_mem c hb))

/-- An exploration-branch selection is an alive member of the pool. -/
theorem qlearning_next_explore_some (ql : QLearning) (now : Int) (choice : Nat)
    (b : Backend) (h : ql.NextBackend now true choice = some b) :
    b ∈ ql.pool.Backends ∧ b.IsAlive now = true := by
  simp only [QLearning.NextBackend] at h
  by_cases hl : ql.pool.Backends.length = 0
  · rw [if_pos hl] at h; cases h
  · rw [if_neg hl, if_pos trivial] at h
    by_cases hal : (ql.pool.Backends.filter (fun b2 => b2.IsAlive now)).length > 0
    · rw [if_pos hal] at h
      have hb := Option.some.inj h
      have hlt : choice % (ql.pool.Backends.filter (fun b2 => b2.IsAlive now)).length
          < (ql.pool.Backends.filter (fun b2 => b2.IsAlive now)).length :=
        Nat.mod_lt _ hal
      rw [List.getD_eq_getElem _ defaultBackend hlt] at hb
      subst hb
      have hmem := List.getElem_mem
        (l := ql.pool.Backends.filter (fun b2 => b2.IsAlive now)) (h := hlt)
      exact List.mem_filter.mp hmem
    · rw [if_neg hal] at h; cases h

/-- An exploration-branch miss means no backend is alive. -/
theorem qlearning_next_explore_none (ql : QLearning) (now : Int) (choice : Nat)
    (h : ql.NextBackend now true choice = none) :
    ∀ b ∈ ql.pool.Backends, b.IsAlive now = false := by
  intro b hb
  simp only [QLearning.NextBackend] at h
  by_cases hl : ql.pool.Backends.length = 0
  · rw [List.length_eq_zero] at hl
    rw [hl] at hb
    cases hb
  · rw [if_neg hl, if_pos trivial] at h
    by_cases hal : (ql.pool.Backends.filter (fun b2 => b2.IsAlive now)).length > 0
    · rw [if_pos hal] at h; cases h
    · have hnil : ql.pool.Backends.filter (fun b2 => b2.IsAlive now) = [] :=
        List.length_eq_zero.mp (Nat.eq_zero_of_not_pos hal)
      by_cases hba : b.IsAlive now
      · exact absurd (List.mem_filter.mpr ⟨hb, hba⟩) (hnil ▸ List.not_mem_nil b)
      · exact Bool.not_eq_true _ |>.mp hba

/-- The exploitation branch returns an alive pool member whenever one
exists. -/
theorem qlearning_next_exploit_alive (ql : QLearning) (now : Int) (choice : Nat)
    (hex : ∃ b0 ∈ ql.pool.Backends, b0.IsAlive now = true) :
    ∃ b, ql.NextBackend now false choice = some b
      ∧ b ∈ ql.pool.Backends ∧ b.IsAlive now = true := by
  obtain ⟨b0, hb0, hb0a⟩ := hex
  have hl : ql.pool.Backends.length ≠ 0 := by
    intro hcon
    rw [List.length_eq_zero] at hcon
    rw [hcon] at hb0
    cases hb0
  have hsome := exploitScan_isSome ql.qTable now ql.pool.Backends none
    (-1000000000) b0 hb0 hb0a
  obtain ⟨c, hc⟩ := Option.isSome_iff_exists.mp hsome
  have hmem := exploitScan_mem ql.qTable now ql.pool.Backends none
    (-1000000000) c hc
  refine ⟨c, ?_, ?_⟩
  · simp only [QLearning.NextBackend, if_neg hl]
    rw [if_neg Bool.false_ne_true]
    revert hc
    generalize QLearning.exploitScan ql.qTable now ql.pool.Backends none
      (-1000000000) = r
    intro hc
    rcases r with ⟨o, mm⟩
    cases o with
    | none => simp at hc
    | some x => exact hc
  · rcases hmem with hgood | hbad
    · exact hgood
    · cases hbad

/-- The exploitation branch over a nonempty pool with no alive backend
returns the first backend of the pool. -/
theorem qlearning_next_exploit_dead (ql : QLearning) (now : Int) (choice : Nat)
    (hne : ql.pool.Backends ≠ [])
    (hdead : ∀ b ∈ ql.pool.Backends, b.IsAlive now = false) :
    ql.NextBackend now false choice
      = some (ql.pool.Backends.getD 0 defaultBackend) := by
  have hl : ql.pool.Backends.length ≠ 0 := by
    intro hcon
    exact hne (List.length_eq_zero.mp hcon)
  simp only [QLearning.NextBackend, if_neg hl]
  rw [if_neg Bool.false_ne_true]
  rw [exploitScan_all_dead ql.qTable now ql.pool.Backends none (-1000000000) hdead]
  have hfind : ql.pool.Backends.find? (fun b => b.IsAlive now) = none :=
    List.find?_eq_none.mpr (fun b hb => by rw [hdead b hb]; simp)
  rw [hfind]
  rw [if_pos (Nat.pos_of_ne_zero hl)]

/-- Over an empty pool every branch returns none. -/
theorem qlearning_next_empty (ql : QLearning) (now : Int) (explore : Bool)
    (choice : Nat) (h : ql.pool.Backends = []) :
    ql.NextBackend now explore choice = none := by
  simp [QLearning.NextBackend, h]

/-- Counterexample to C1: on a nonempty pool whose only backend is
non-routable, the Q-learning exploitation branch returns that
non-routable backend instead of none. -/
theorem qlearning_next_nonroutable_counterexample :
    deadQL.NextBackend 0 false 0 = some deadBackend
    ∧ deadBackend.IsAlive 0 = false
    ∧ deadBackend ∈ deadQL.pool.Backends := by
  refine ⟨?_, rfl, ?_⟩
  · rfl
  · exact List.mem_singleton.mpr rfl

/-- Claim C1 amended: RoundRobin returns an alive pool member when it
returns a backend, and (absent uint64 counter wraparound during the
probe) returns none only when no backend is alive; the Q-learning
exploration branch likewise; the Q-learning exploitation branch
returns an alive member whenever one exists, but over a nonempty pool
with no alive backend it returns the pool's first backend — a
non-routable one — instead of none; only an empty pool yields none
there. -/
theorem nextBackend_routable_amended :
    (∀ (pool : ServerPool) (now : Int) (b : Backend) (p2 : ServerPool),
        RoundRobin.NextBackend pool now = (some b, p2) →
        b ∈ pool.Backends ∧ b.IsAlive now = true)
    ∧ (∀ (pool : ServerPool) (now : Int) (p2 : ServerPool),
        (pool.current + 1) % U64 + pool.Backends.length ≤ U64 →
        RoundRobin.NextBackend pool now = (none, p2) →
        ∀ b ∈ pool.Backends, b.IsAlive now = false)
    ∧ (∀ (ql : QLearning) (now : Int) (choice : Nat) (b : Backend),
        ql.NextBackend now true choice = some b →
        b ∈ ql.pool.Backends ∧ b.IsAlive now = true)
    ∧ (∀ (ql : QLearning) (now : Int) (choice : Nat),
        ql.NextBackend now true choice = none →
        ∀ b ∈ ql.pool.Backends, b.IsAlive now = false)
    ∧ (∀ (ql : QLearning) (now : Int) (choice : Nat),
        (∃ b0 ∈ ql.pool.Backends, b0.IsAlive now = true) →
        ∃ b, ql.NextBackend now false choice = some b
          ∧ b ∈ ql.pool.Backends ∧ b.IsAlive now = true)
    ∧ (∀ (ql : QLearning) (now : Int) (choice : Nat),
        ql.pool.Backends ≠ [] →
        (∀ b ∈ ql.pool.Backends, b.IsAlive now = false) →
        ql.NextBackend now false choice
          = some (ql.pool.Backends.getD 0 defaultBackend))
    ∧ (∀ (ql : QLearning) (now : Int) (explore : Bool) (choice : Nat),
        ql.pool.Backends = [] → ql.NextBackend now explore choice = none) :=
  ⟨roundRobin_next_some,
   fun pool now p2 => roundRobin_next_none pool now p2,
   qlearning_next_explore_some,
   qlearning_next_explore_none,
   qlearning_next_exploit_alive,
   qlearning_next_exploit_dead,
   qlearning_next_empty⟩

/-- Witness for C1 amended: over Scenario E's healthy pool, the
exploitation branch yields an alive pool member. -/
theorem nextBackend_routable_amended_witness :
    ∃ b, scenarioE0.NextBackend 0 false 0 = some b
      ∧ b ∈ scenarioE0.pool.Backends ∧ b.IsAlive 0 = true :=
  nextBackend_routable_amended.2.2.2.2.1 scenarioE0 0 0
    ⟨mkB "B1", List.mem_cons_self _ _, rfl⟩

/-- U64 is positive. -/
theorem U64_pos : 0 < U64 := by norm_num [U64]

/-- With every backend alive, one RoundRobin call selects the backend
at the incremented counter modulo the pool size. -/
theorem rrStep_all_alive (pool : ServerPool) (now : Int)
    (hne : pool.Backends.length ≠ 0)
    (halive : ∀ b ∈ pool.Backends, b.IsAlive now = true) :
    RoundRobin.NextBackend pool now
      = (some (pool.Backends.getD
          (((pool.current + 1) % U64) % pool.Backends.length) defaultBackend),
         { pool with current := (pool.current + 1) % U64 }) := by
  simp only [RoundRobin.NextBackend, if_neg hne]
  obtain ⟨k, hk⟩ : ∃ k, pool.Backends.length = k + 1 :=
    ⟨pool.Backends.length - 1, by omega⟩
  have hpos : 0 < pool.Backends.length := Nat.pos_of_ne_zero hne
  have hidx0 : (((pool.current + 1) % U64 + 0) % U64) % pool.Backends.length
      < pool.Backends.length := Nat.mod_lt _ hpos
  have hpred : (pool.Backends.getD
      ((((pool.current + 1) % U64 + 0) % U64) % pool.Backends.length)
      defaultBackend).IsAlive now = true := by
    rw [List.getD_eq_getElem _ _ hidx0]
    exact halive _ (List.getElem_mem _)
  have hfind : List.find? (fun i => (pool.Backends.getD
        ((((pool.current + 1) % U64 + i) % U64) % pool.Backends.length)
        defaultBackend).IsAlive now) (List.range pool.Backends.length)
      = some 0 := by
    have hrange : List.range pool.Backends.length
        = 0 :: List.map Nat.succ (List.range k) := by
      rw [hk, List.range_succ_eq_map]
    rw [hrange]
    exact List.find?_cons_of_pos _ hpred
  rw [hfind]
  have hs : ((pool.current + 1) % U64 + 0) % U64 = (pool.current + 1) % U64 := by
    rw [Nat.add_zero]
    exact Nat.mod_eq_of_lt (Nat.mod_lt _ U64_pos)
  simp only [hs]

/-- With every backend alive and no counter wraparound, n RoundRobin
calls select the backends at n consecutive counter positions. -/
theorem rrRun_all_alive (now : Int) :
    ∀ (n : Nat) (pool : ServerPool),
    pool.Backends.length ≠ 0 →
    (∀ b ∈ pool.Backends, b.IsAlive now = true) →
    pool.current + n < U64 →
    (RoundRobin.run pool now n).1
      = (List.range n).map (fun i => some (pool.Backends.getD
          ((pool.current + 1 + i) % pool.Backends.length) defaultBackend)) := by
  intro n
  induction n with
  | zero => intro pool _ _ _; rfl
  | succ k ih =>
    intro pool hne halive hwrap
    have hc1 : (pool.current + 1) % U64 = pool.current + 1 :=
      Nat.mod_eq_of_lt (by omega)
    simp only [RoundRobin.run]
    rw [rrStep_all_alive pool now hne halive]
    have hih := ih { pool with current := (pool.current + 1) % U64 }
      hne halive (by simp only; omega)
    simp only [hc1] at hih
    simp only [hih, hc1]
    rw [List.range_succ_eq_map, List.map_cons, List.map_map]
    congr 1
    · apply List.map_congr_left
      intro i _
      simp only [Function.comp_apply]
      have harith : pool.current + 2 + i = pool.current + 1 + (i + 1) := by
        omega
      rw [harith]

/-- The consecutive-position selections are the rotated pool, mapped
into options. -/
theorem map_range_getD_rotate (bs : List Backend) (m : Nat)
    (hne : bs.length ≠ 0) :
    (List.range bs.length).map
      (fun i => some (bs.getD ((m + i) % bs.length) defaultBackend))
      = (bs.rotate (m % bs.length)).map some := by
  have hpos : 0 < bs.length := Nat.pos_of_ne_zero hne
  apply List.ext_getElem
  · simp [List.length_rotate]
  · intro i h1 h2
    simp only [List.getElem_map, List.getElem_range]
    rw [List.getElem_rotate]
    have hidx : (m + i) % bs.length = (i + m % bs.length) % bs.length := by
      calc (m + i) % bs.length = (i + m) % bs.length := by rw [Nat.add_comm]
        _ = (i + m % bs.length) % bs.length :=
            (Nat.ModEq.add_left i (Nat.mod_modEq m bs.length)).symm
    rw [List.getD_eq_getElem _ _ (by rw [hidx]; exact Nat.mod_lt _ hpos)]
    simp only [hidx]

/-- Counting an option in a some-mapped list counts the value. -/
theorem count_some_map (l : List Backend) (b : Backend) :
    (l.map some).count (some b) = l.count b := by
  induction l with
  | nil => rfl
  | cons c rest ih =>
    simp only [List.map_cons, List.count_cons, ih, beq_iff_eq, Option.some.injEq]

/-- Claim C8 amended: for a pool of k distinct backends, all alive,
any k consecutive RoundRobin selections that do not straddle the
uint64 counter wraparound return each backend exactly once (they form
a rotation of the pool). -/
theorem roundRobin_cycle (pool : ServerPool) (now : Int) (k : Nat)
    (hk : pool.Backends.length = k) (hpos : 0 < k)
    (hnd : pool.Backends.Nodup)
    (halive : ∀ b ∈ pool.Backends, b.IsAlive now = true)
    (hwrap : pool.current + k < U64) :
    ∀ b ∈ pool.Backends, ((RoundRobin.run pool now k).1).count (some b) = 1 := by
  subst hk
  intro b hb
  have hne : pool.Backends.length ≠ 0 := by omega
  rw [rrRun_all_alive now pool.Backends.length pool hne halive hwrap]
  rw [map_range_getD_rotate pool.Backends (pool.current + 1) hne]
  rw [count_some_map]
  rw [(List.rotate_perm pool.Backends
    ((pool.current + 1) % pool.Backends.length)).count_eq b]
  exact List.count_eq_one_of_mem hnd hb

/-- Counterexample to C8: three alive backends with the shared counter
three steps from the uint64 wraparound; the three consecutive
selections are (c, a, a), so backend b is never returned. -/
theorem roundRobin_wrap_counterexample :
    wrapPool.Backends.length = 3
    ∧ (∀ b ∈ wrapPool.Backends, b.IsAlive 0 = true)
    ∧ mkB "b" ∈ wrapPool.Backends
    ∧ ((RoundRobin.run wrapPool 0 3).1).count (some (mkB "b")) = 0 := by
  refine ⟨rfl, ?_, ?_, ?_⟩
  · decide
  · decide
  · rfl

/-- Witness for C8 amended: a fresh two-backend pool, two calls, each
backend exactly once. -/
theorem roundRobin_cycle_witness :
    ((RoundRobin.run { Backends := [mkB "a", mkB "b"], current := 0 } 0 2).1).count
      (some (mkB "a")) = 1 :=
  roundRobin_cycle { Backends := [mkB "a", mkB "b"], current := 0 } 0 2
    rfl (by norm_num) (by decide) (by decide) (by norm_num [U64])
    (mkB "a") (List.mem_cons_self _ _)

end GoAdapt
